import Mathlib

/-!
Verification of the 42zk circuit layer: a shallow embedding of the three
circuit crates (`mixer_bellman`, `twin_bellman`, `noble6`) at the witness
level.  Machine integers (`u128`, `u64`, `u16`, `u8`) are modelled as `Nat`
with explicit `% 2 ^ w` where overflow matters; fallible synthesis returns
`Except SynthesisError`; the mutable constraint system is threaded as an
explicit state value.  The SHA-256 gadget and the Groth16 primitives are
external collaborator libraries and are modelled as abstract function
parameters.
-/

set_option maxRecDepth 10000

/-- The synthesis error kind (`bellman::SynthesisError` / halo's error type);
only the variants the embedded code produces are listed. -/
inductive SynthesisError where
  | assignmentMissing
  | unsatisfiable
  | violation
deriving DecidableEq

/-! ## Field encoding layer: integer-to-bit conversions -/

/-- `u128::to_be_bytes`: sixteen bytes, most significant first; byte `j`
holds bits `8*(15-j) .. 8*(15-j)+7` of `n`. -/
def u128ToBeBytes (n : Nat) : List Nat :=
  (List.range 16).map (fun j => (n >>> (8 * (15 - j))) % 256)

/-- One byte to bits, per the mixer/twin `convert_to_bits` inner loop:
`(0..8).map(|i| (byte >> i) & 1 == 1).rev()` — most-significant bit first. -/
def byteBitsMsbFirst (b : Nat) : List Bool :=
  ((List.range 8).map (fun i => decide ((b >>> i) &&& 1 = 1))).reverse

/-- `convert_to_bits` as defined (identically) in `mixer_bellman` and
`twin_bellman`: big-endian bytes, most-significant bit first in each byte. -/
def convert_to_bits (num : Nat) : List Bool :=
  (u128ToBeBytes num).flatMap byteBitsMsbFirst

/-- Little-endian bytes of a `width`-byte unsigned integer
(`u16::to_le_bytes`, `u64::to_le_bytes`, `u128::to_le_bytes`):
byte `j` holds bits `8*j .. 8*j+7` of `n`. -/
def leBytes (width n : Nat) : List Nat :=
  (List.range width).map (fun j => (n >>> (8 * j)) % 256)

/-- One byte to bits, per `noble6`'s `ChainState::to_bits` inner loop:
`(0..8).map(|i| (byte >> i) & 1 == 1)` — least-significant bit first. -/
def byteBitsLsbFirst (b : Nat) : List Bool :=
  (List.range 8).map (fun i => decide ((b >>> i) &&& 1 = 1))

/-- Spec-side definition (following the spec's words, for comparison with the
source encodings): a fixed-`width` bit sequence, most-significant bit first. -/
def bigEndianBits (width n : Nat) : List Bool :=
  (List.range width).map (fun i => n.testBit (width - 1 - i))

/-- Spec-side definition: a fixed-`width` bit sequence, least-significant bit
first. -/
def lsbFirstBits (width n : Nat) : List Bool :=
  (List.range width).map (fun i => n.testBit i)

/-! ## Mixer and Twin circuits (`mixer_bellman`, `twin_bellman`)

The bellman constraint system is modelled as a trace of events: allocated
boolean wires, SHA-256 gadget invocations (the gadget's internal wires and
constraints belong to the collaborator library), and `pack_into_inputs`
calls.  The SHA-256 compression itself is an abstract parameter
`sha256 : List Bool → List Bool`. -/

inductive MixEvent where
  | allocBit (b : Bool)
  | sha256Gadget (input : List Bool)
  | packInputs (bits : List Bool)
deriving DecidableEq

/-- `Amount { value: u128, nonce: u128 }`. -/
structure Amount where
  value : Nat
  nonce : Nat
deriving DecidableEq

/-- The 256-bit preimage built by `Amount::hash` / `hash_amount`:
`preimage[i] = amount_bits[i]` for `i < 128`, `preimage[i+128] = nonce_bits[i]`. -/
def hashPreimage (value nonce : Nat) : List Bool :=
  (List.range 256).map (fun i =>
    if i < 128 then (convert_to_bits value).getD i false
    else (convert_to_bits nonce).getD (i - 128) false)

/-- `Amount::hash` (mixer): allocate the 256 preimage bits, then apply the
SHA-256 gadget.  Returns the digest wires and the grown constraint system. -/
def Amount.hash (sha256 : List Bool → List Bool) (cs : List MixEvent) (a : Amount) :
    List Bool × List MixEvent :=
  let preimage := hashPreimage a.value a.nonce
  (sha256 preimage, (cs ++ preimage.map MixEvent.allocBit) ++ [MixEvent.sha256Gadget preimage])

/-- `hash_amount` (twin): identical construction with unpacked arguments. -/
def hash_amount (sha256 : List Bool → List Bool) (cs : List MixEvent)
    (amount nonce : Nat) : List Bool × List MixEvent :=
  let preimage := hashPreimage amount nonce
  (sha256 preimage, (cs ++ preimage.map MixEvent.allocBit) ++ [MixEvent.sha256Gadget preimage])

/-- The `amounts.into_iter().map(|a| a.hash(&mut cs)).collect()` step of
`Mixer::recursive_hash`. -/
def hashAmounts (sha256 : List Bool → List Bool) (cs : List MixEvent) :
    List Amount → List (List Bool) × List MixEvent
  | [] => ([], cs)
  | a :: rest =>
    let (h, cs1) := Amount.hash sha256 cs a
    let (hs, cs2) := hashAmounts sha256 cs1 rest
    (h :: hs, cs2)

/-- `Mixer::recursive_hash`: hash every amount, then left-fold the digests,
starting from an empty accumulator, hashing `acc ‖ h` at every step. -/
def Mixer.recursive_hash (sha256 : List Bool → List Bool) (cs : List MixEvent)
    (amounts : List Amount) : List Bool × List MixEvent :=
  let (hashes, cs1) := hashAmounts sha256 cs amounts
  hashes.foldl
    (fun acc h =>
      let combined_bits := acc.1 ++ h
      (sha256 combined_bits, acc.2 ++ [MixEvent.sha256Gadget combined_bits]))
    (([] : List Bool), cs1)

structure Mixer where
  inputs : List Amount
  outputs : List Amount

/-- `iter().map(|a| a.value).sum::<u128>()` — u128 addition, i.e. wrapping
modulo `2 ^ 128` (release-profile overflow semantics). -/
def u128Sum (l : List Nat) : Nat :=
  l.foldl (fun acc v => (acc + v) % 2 ^ 128) 0

def Mixer.inputs_sum (m : Mixer) : Nat := u128Sum (m.inputs.map (fun a => a.value))

def Mixer.outputs_sum (m : Mixer) : Nat := u128Sum (m.outputs.map (fun a => a.value))

/-- `Mixer::synthesize`: the conservation guard, then the recursive hash over
`inputs ++ outputs`, then `pack_into_inputs`. -/
def Mixer.synthesize (sha256 : List Bool → List Bool) (m : Mixer) (cs : List MixEvent) :
    Except SynthesisError Unit × List MixEvent :=
  if m.inputs_sum < m.outputs_sum then (.error .unsatisfiable, cs)
  else
    let amounts := m.inputs ++ m.outputs
    let (recursive_hash, cs1) := Mixer.recursive_hash sha256 cs amounts
    (.ok (), cs1 ++ [MixEvent.packInputs recursive_hash])

structure Twin where
  input_amount : Nat
  input_nonce : Nat
  output_amount : Nat
  output_nonce : Nat

/-- `Twin::synthesize`: conservation guard, the two commitment hashes, then
the packed concatenation `commit(input) ‖ commit(output)`. -/
def Twin.synthesize (sha256 : List Bool → List Bool) (t : Twin) (cs : List MixEvent) :
    Except SynthesisError Unit × List MixEvent :=
  if t.input_amount < t.output_amount then (.error .unsatisfiable, cs)
  else
    let (input_hash, cs1) := hash_amount sha256 cs t.input_amount t.input_nonce
    let (output_hash, cs2) := hash_amount sha256 cs1 t.output_amount t.output_nonce
    let input_output_hashes := input_hash ++ output_hash
    (.ok (), cs2 ++ [MixEvent.packInputs input_output_hashes])

/-- The public input of the twin verifier: two disclosed 32-byte digests. -/
structure TwinInput where
  from_hash : List Nat
  to_hash : List Nat

/-- `twin_bellman::verify`: concatenates the two hashes, converts bytes to
bits, multipacks them into field elements and runs the pairing check.  The
byte-to-bit conversion, the multipacking and the Groth16 pairing check are
collaborator-library functions, taken as abstract parameters. -/
def Twin.verify (verify_proof : List Nat → List Nat → List Int → Bool)
    (compute_multipacking : List Bool → List Int)
    (bytes_to_bits : List Nat → List Bool)
    (vk_bytes proof : List Nat) (input : TwinInput) : Bool :=
  let combined_hash := input.from_hash ++ input.to_hash
  verify_proof vk_bytes proof (compute_multipacking (bytes_to_bits combined_hash))

/-! ## Ledger-transition circuit (`noble6`)

The halo constraint system is modelled at the witness level: every
`enforce_zero(lc)` is recorded as the integer value of `lc` under the
witness (a satisfied constraint is a recorded `0`).  Wires allocated inside
the SHA-256 gadget, and the gadget's internal constraints, belong to the
collaborator library and are not part of this trace.  All slice indexing of
the source is in bounds for the payload sizes the circuit is used with. -/

/-- Witness value of `lc_from_bits`: weighted sum of the bit wires, the
coefficient starting at one and doubling per bit (least-significant first). -/
def lc_from_bits (bits : List Bool) : Int :=
  (bits.foldl (fun acc b => (acc.1 + (if b then acc.2 else 0), acc.2 * 2))
    ((0 : Int), (1 : Int))).1

/-- Witness value computed by `bits_to_num`:
`bits.iter().rev().fold(acc + acc + bit)`. -/
def bits_to_num_value (bits : List Bool) : Nat :=
  bits.reverse.foldl (fun acc b => acc + acc + (if b then 1 else 0)) 0

/-- `bits_to_num`: witness the number, and enforce
`lc_from_bits(bits) - num = 0`.  (`AssignmentMissing` can only occur without
a witness; this embedding is of witness-carrying synthesis.) -/
def bits_to_num (cs : List Int) (bits : List Bool) : Nat × List Int :=
  let num := bits_to_num_value bits
  (num, cs ++ [lc_from_bits bits - (num : Int)])

/-- The two weighted linear combinations built by `enforce_equality`, with
the running coefficient (starts at one, doubles per zipped bit pair). -/
def enforce_equality_lcs (a b : List Bool) : Int × Int × Int :=
  (a.zip b).foldl
    (fun acc p =>
      (acc.1 + (if p.1 then acc.2.2 else 0),
       acc.2.1 + (if p.2 then acc.2.2 else 0),
       acc.2.2 * 2))
    ((0 : Int), (0 : Int), (1 : Int))

/-- `enforce_equality`: one zero-constraint `a_lc - b_lc`. -/
def enforce_equality (cs : List Int) (a b : List Bool) : List Int :=
  cs ++ [(enforce_equality_lcs a b).1 - (enforce_equality_lcs a b).2.1]

/-- `convert_to_num` inside `CTransaction::from_bits`: witness-side
reconstruction `Σ bit_i << i` (least-significant bit first). -/
def convert_to_num (bits : List Bool) : Nat :=
  (bits.enum.map (fun p => if p.2 then 1 <<< p.1 else 0)).sum

/-- `Transaction { from: u16, to: u16, amount: u128 }` (`from == to` is a
mint).  `from` and `to` are Lean keywords, hence the primes. -/
structure Transaction where
  from' : Nat
  to' : Nat
  amount : Nat
deriving DecidableEq

/-- `Transaction::to_bytes`: little-endian `from ‖ to ‖ amount`. -/
def Transaction.to_bytes (t : Transaction) : List Nat :=
  leBytes 2 t.from' ++ leBytes 2 t.to' ++ leBytes 16 t.amount

/-- `ChainState { height: u64, root_hash: [u8; 32], balances: [u128; 8],
tx: Option<Transaction> }`. -/
structure ChainState where
  height : Nat
  root_hash : List Nat
  balances : List Nat
  tx : Option Transaction
deriving DecidableEq

/-- `ChainState::to_bits`: little-endian bytes of height, the raw root-hash
bytes, little-endian bytes of each balance, then the optional transaction
bytes; every byte least-significant bit first. -/
def ChainState.to_bits (s : ChainState) : List Bool :=
  let balance_bytes := s.balances.flatMap (fun b => leBytes 16 b)
  let bytes := (leBytes 8 s.height ++ s.root_hash ++ balance_bytes) ++
    (match s.tx with
     | some tx => tx.to_bytes
     | none => [])
  bytes.flatMap byteBitsLsbFirst

/-- The genesis state (`ReachCircuit::base_payload`). -/
def genesis : ChainState :=
  { height := 0, root_hash := List.replicate 32 0,
    balances := List.replicate 8 0, tx := none }

def base_payload : List Bool := genesis.to_bits

/-- In-circuit transaction: `from`/`to` are witness-side `u16` values, the
amount is an allocated number (its witness value here). -/
structure CTransaction where
  from' : Nat
  to' : Nat
  amount : Nat
deriving DecidableEq

/-- `CTransaction::from_bits`: 160 bits expected; `from` and `to` are
reconstructed witness-side and bounds-checked (`Violation`), the amount is
allocated and constrained via `bits_to_num`. -/
def CTransaction.from_bits (cs : List Int) (bits : List Bool) :
    Except SynthesisError CTransaction × List Int :=
  if bits.length ≠ 8 * (4 + 16) then (.error .unsatisfiable, cs)
  else
    let fr := convert_to_num (bits.take 16)
    if 8 ≤ fr then (.error .violation, cs)
    else
      let t := convert_to_num ((bits.drop 16).take 16)
      if 8 ≤ t then (.error .violation, cs)
      else
        let res := bits_to_num cs ((bits.drop 32).take 128)
        (.ok { from' := fr, to' := t, amount := res.1 }, res.2)

/-- In-circuit chain state: height and balances as allocated numbers
(witness values), root hash and per-balance bit slices as boolean wires. -/
structure CChainState where
  height : Nat
  root_hash : List Bool
  balances : List Nat
  balances_bits : List (List Bool)
  tx : Option CTransaction
deriving DecidableEq

/-- Fuel-driven `slice::chunks(n)`; the fuel is the list length, which
suffices for `n ≥ 1`. -/
def chunksOfFuel {α : Type} : Nat → Nat → List α → List (List α)
  | 0, _, _ => []
  | _ + 1, _, [] => []
  | f + 1, n, a :: l => (a :: l).take n :: chunksOfFuel f n ((a :: l).drop n)

def chunksOf {α : Type} (n : Nat) (l : List α) : List (List α) :=
  chunksOfFuel l.length n l

/-- `bits_to_num` mapped over the balance chunks
(`chunks(8*16).map(|b| bits_to_num(..))`), threading the constraint system. -/
def bitsToNumList (cs : List Int) : List (List Bool) → List Nat × List Int
  | [] => ([], cs)
  | c :: rest =>
    let r := bits_to_num cs c
    let rs := bitsToNumList r.2 rest
    (r.1 :: rs.1, rs.2)

/-- `CChainState::from_bits`.  Field offsets as in the source: height is
bits `0..64`, root hash `64..320`, balances `320..1344` in chunks of 128 —
but the transaction slice starts at `8*32 + 8*8*16 = 1280`, i.e. the
`8*8` height bits are missing from that offset. -/
def CChainState.from_bits (cs : List Int) (bits : List Bool) :
    Except SynthesisError CChainState × List Int :=
  let hres := bits_to_num cs (bits.take (8 * 8))
  let root_hash := (bits.drop (8 * 8)).take (8 * 32)
  let balance_chunks := chunksOf (8 * 16) ((bits.drop (8 * 8 + 8 * 32)).take (8 * 8 * 16))
  let bres := bitsToNumList hres.2 balance_chunks
  let tx_bits := bits.drop (8 * 32 + 8 * 8 * 16)
  if tx_bits.isEmpty then
    (.ok { height := hres.1, root_hash := root_hash, balances := bres.1,
           balances_bits := balance_chunks, tx := none }, bres.2)
  else
    match CTransaction.from_bits bres.2 tx_bits with
    | (.error e, csE) => (.error e, csE)
    | (.ok tx, cs3) =>
      (.ok { height := hres.1, root_hash := root_hash, balances := bres.1,
             balances_bits := balance_chunks, tx := some tx }, cs3)

/-- `CChainState::hash_leaf`: hash of `left ‖ right`. -/
def hash_leaf (sha256 : List Bool → List Bool) (left right : List Bool) : List Bool :=
  sha256 (left ++ right)

/-- One round of the `while root_hash.len() > 1` loop:
`chunks(2).map(|lr| hash_leaf(lr[0], lr[1]))`. -/
def merklePairStep (sha256 : List Bool → List Bool) (hs : List (List Bool)) :
    List (List Bool) :=
  (chunksOf 2 hs).map (fun lr => hash_leaf sha256 (lr.getD 0 []) (lr.getD 1 []))

/-- Fuel-driven while loop; the initial length is enough fuel since every
round at least halves a list of length ≥ 2. -/
def merkleWhileFuel (sha256 : List Bool → List Bool) :
    Nat → List (List Bool) → List (List Bool)
  | 0, hs => hs
  | f + 1, hs =>
    if 1 < hs.length then merkleWhileFuel sha256 f (merklePairStep sha256 hs) else hs

/-- `CChainState::merkle_root_hash`: hash every balance bit-slice into a
leaf, pairwise-reduce to a single root, `pop` it (`Unsatisfiable` when there
are no leaves). -/
def CChainState.merkle_root_hash (sha256 : List Bool → List Bool)
    (st : CChainState) : Except SynthesisError (List Bool) :=
  let leaf_hashes := st.balances_bits.map sha256
  let root_hash := merkleWhileFuel sha256 leaf_hashes.length leaf_hashes
  match root_hash.getLast? with
  | none => .error .unsatisfiable
  | some r => .ok r

/-- `ReachCircuit::synthesize` over the witness values of the two payloads. -/
def ReachCircuit.synthesize (sha256 : List Bool → List Bool) (cs : List Int)
    (old_payload new_payload : List Bool) : Except SynthesisError Unit × List Int :=
  match CChainState.from_bits cs old_payload with
  | (.error e, cs1) => (.error e, cs1)
  | (.ok prev_state, cs1) =>
    match CChainState.from_bits cs1 new_payload with
    | (.error e, cs2) => (.error e, cs2)
    | (.ok curr_state, cs2) =>
      if curr_state.tx.isNone then (.error .unsatisfiable, cs2)
      else
        let cs3 := cs2 ++ [(curr_state.height : Int) - (prev_state.height : Int) - 1]
        match CChainState.merkle_root_hash sha256 prev_state with
        | .error e => (.error e, cs3)
        | .ok prev_root_hash =>
          let cs4 := enforce_equality cs3 prev_state.root_hash prev_root_hash
          match CChainState.merkle_root_hash sha256 curr_state with
          | .error e => (.error e, cs4)
          | .ok curr_root_hash =>
            let cs5 := enforce_equality cs4 curr_state.root_hash curr_root_hash
            match curr_state.tx with
            | none => (.error .unsatisfiable, cs5)
            | some tx =>
              if tx.from' = tx.to' then
                (.ok (), cs5 ++
                  [(curr_state.balances.getD tx.to' 0 : Int)
                    - (prev_state.balances.getD tx.to' 0 : Int) - (tx.amount : Int)])
              else
                (.ok (), cs5 ++
                  [(prev_state.balances.getD tx.from' 0 : Int)
                    - (curr_state.balances.getD tx.from' 0 : Int) - (tx.amount : Int),
                   (curr_state.balances.getD tx.to' 0 : Int)
                    - (prev_state.balances.getD tx.to' 0 : Int) - (tx.amount : Int)])

/-! ### Value lemmas for the noble6 encodings -/

/-- Mathematical value of a least-significant-bit-first wire sequence. -/
def bitsValLE : List Bool → Nat
  | [] => 0
  | b :: t => (if b then 1 else 0) + 2 * bitsValLE t

/-- The parsed state a length-1440 payload yields (this is the only payload
length on which the transaction slice check `len == 160` passes). -/
def parsedState (bits : List Bool) : CChainState :=
  { height := bits_to_num_value (bits.take 64),
    root_hash := (bits.drop 64).take 256,
    balances := (chunksOf 128 ((bits.drop 320).take 1024)).map bits_to_num_value,
    balances_bits := chunksOf 128 ((bits.drop 320).take 1024),
    tx := some
      { from' := convert_to_num ((bits.drop 1280).take 16),
        to' := convert_to_num (((bits.drop 1280).drop 16).take 16),
        amount := bits_to_num_value (((bits.drop 1280).drop 32).take 128) } }

/-- The constraints `CChainState::from_bits` emits on a fully parsed
payload: one `bits_to_num` constraint for the height, eight for the
balances, one for the transaction amount. -/
def parseTrace (bits : List Bool) : List Int :=
  [lc_from_bits (bits.take 64) - (bits_to_num_value (bits.take 64) : Int)]
  ++ (chunksOf 128 ((bits.drop 320).take 1024)).map
      (fun c => lc_from_bits c - (bits_to_num_value c : Int))
  ++ [lc_from_bits (((bits.drop 1280).drop 32).take 128)
      - (bits_to_num_value (((bits.drop 1280).drop 32).take 128) : Int)]

/-- Spec-side definition of the three-level binary Merkle tree over 8 leaf
preimages: each leaf is the hash of one balance's bit slice, and internal
nodes hash `left ‖ right`. -/
def specMerkleRoot8 (sha256 : List Bool → List Bool)
    (b0 b1 b2 b3 b4 b5 b6 b7 : List Bool) : List Bool :=
  hash_leaf sha256
    (hash_leaf sha256 (hash_leaf sha256 (sha256 b0) (sha256 b1))
                      (hash_leaf sha256 (sha256 b2) (sha256 b3)))
    (hash_leaf sha256 (hash_leaf sha256 (sha256 b4) (sha256 b5))
                      (hash_leaf sha256 (sha256 b6) (sha256 b7)))

/-- Witness-side transaction fields of a fully parsed payload. -/
def txFromOf (bits : List Bool) : Nat := convert_to_num ((bits.drop 1280).take 16)

def txToOf (bits : List Bool) : Nat := convert_to_num (((bits.drop 1280).drop 16).take 16)

def txAmountOf (bits : List Bool) : Nat :=
  bits_to_num_value (((bits.drop 1280).drop 32).take 128)

/-- The Merkle root the circuit recomputes from a length-1440 payload's
eight balance bit-slices. -/
def stateMerkleRoot (sha256 : List Bool → List Bool) (bits : List Bool) : List Bool :=
  specMerkleRoot8 sha256
    (((bits.drop 320).take 1024).take 128)
    ((((bits.drop 320).take 1024).drop 128).take 128)
    ((((bits.drop 320).take 1024).drop 256).take 128)
    ((((bits.drop 320).take 1024).drop 384).take 128)
    ((((bits.drop 320).take 1024).drop 512).take 128)
    ((((bits.drop 320).take 1024).drop 640).take 128)
    ((((bits.drop 320).take 1024).drop 768).take 128)
    ((((bits.drop 320).take 1024).drop 896).take 128)

/-! ## Concrete instances used by witness theorems -/

/-- A concrete stand-in for the abstract SHA-256 gadget (any function with
256-bit output will do for the structural claims). -/
def constSha : List Bool → List Bool := fun _ => List.replicate 256 false

/-- A well-formed current state carrying exactly one transaction, encoded by
`ChainState::to_bits`. -/
def c2FailingPayload : List Bool :=
  ChainState.to_bits
    { height := 1, root_hash := List.replicate 32 0,
      balances := List.replicate 8 0,
      tx := some { from' := 0, to' := 0, amount := 5 } }

/-! ### The bit-order lemmas -/

theorem decide_shift_and_eq_testBit (b i : Nat) :
    decide ((b >>> i) &&& 1 = 1) = b.testBit i := by
  simp [Nat.testBit_to_div_mod, Nat.and_one_is_mod, Nat.shiftRight_eq_div_pow]

theorem byteBitsMsbFirst_eq (b : Nat) :
    byteBitsMsbFirst b =
      [b.testBit 7, b.testBit 6, b.testBit 5, b.testBit 4,
       b.testBit 3, b.testBit 2, b.testBit 1, b.testBit 0] := by
  show [decide ((b >>> 7) &&& 1 = 1), decide ((b >>> 6) &&& 1 = 1),
        decide ((b >>> 5) &&& 1 = 1), decide ((b >>> 4) &&& 1 = 1),
        decide ((b >>> 3) &&& 1 = 1), decide ((b >>> 2) &&& 1 = 1),
        decide ((b >>> 1) &&& 1 = 1), decide ((b >>> 0) &&& 1 = 1)] = _
  simp [decide_shift_and_eq_testBit]

theorem byteBitsLsbFirst_eq (b : Nat) :
    byteBitsLsbFirst b =
      [b.testBit 0, b.testBit 1, b.testBit 2, b.testBit 3,
       b.testBit 4, b.testBit 5, b.testBit 6, b.testBit 7] := by
  show [decide ((b >>> 0) &&& 1 = 1), decide ((b >>> 1) &&& 1 = 1),
        decide ((b >>> 2) &&& 1 = 1), decide ((b >>> 3) &&& 1 = 1),
        decide ((b >>> 4) &&& 1 = 1), decide ((b >>> 5) &&& 1 = 1),
        decide ((b >>> 6) &&& 1 = 1), decide ((b >>> 7) &&& 1 = 1)] = _
  simp [decide_shift_and_eq_testBit]

theorem length_byteBitsMsbFirst (b : Nat) : (byteBitsMsbFirst b).length = 8 := by
  simp [byteBitsMsbFirst]

theorem length_byteBitsLsbFirst (b : Nat) : (byteBitsLsbFirst b).length = 8 := by
  simp [byteBitsLsbFirst]

theorem length_flatMap_msb (bs : List Nat) :
    (bs.flatMap byteBitsMsbFirst).length = 8 * bs.length := by
  induction bs with
  | nil => simp
  | cons b bs ih => simp [ih, length_byteBitsMsbFirst, Nat.mul_succ, Nat.add_comm]

theorem length_flatMap_lsb (bs : List Nat) :
    (bs.flatMap byteBitsLsbFirst).length = 8 * bs.length := by
  induction bs with
  | nil => simp
  | cons b bs ih => simp [ih, length_byteBitsLsbFirst, Nat.mul_succ, Nat.add_comm]

theorem getElem_flatMap_msb (bs : List Nat) (k : Nat) (hk : k < 8 * bs.length)
    (hk' : k < (bs.flatMap byteBitsMsbFirst).length) :
    (bs.flatMap byteBitsMsbFirst)[k] = (bs.getD (k / 8) 0).testBit (7 - k % 8) := by
  induction bs generalizing k with
  | nil => simp at hk
  | cons b bs ih =>
    have hfm : (b :: bs).flatMap byteBitsMsbFirst
        = byteBitsMsbFirst b ++ bs.flatMap byteBitsMsbFirst := by simp
    rw [List.getElem_of_eq hfm]
    by_cases h8 : k < 8
    · rw [List.getElem_append_left (by rw [length_byteBitsMsbFirst]; exact h8)]
      rw [Nat.div_eq_of_lt h8, Nat.mod_eq_of_lt h8, List.getD_cons_zero]
      interval_cases k <;> simp [byteBitsMsbFirst_eq]
    · have hb : (byteBitsMsbFirst b).length ≤ k := by
        rw [length_byteBitsMsbFirst]; omega
      rw [List.getElem_append_right hb]
      have hlen : k - 8 < (bs.flatMap byteBitsMsbFirst).length := by
        rw [hfm] at hk'
        simp only [List.length_append, length_byteBitsMsbFirst] at hk'
        omega
      have hget := ih (k - 8) (by simp at hk; omega) hlen
      simp only [length_byteBitsMsbFirst]
      rw [hget]
      have h1 : (k - 8) / 8 = k / 8 - 1 := by omega
      have h2 : (k - 8) % 8 = k % 8 := by omega
      have h3 : 1 ≤ k / 8 := by omega
      rw [h1, h2]
      rcases Nat.exists_eq_add_of_le h3 with ⟨m, hm⟩
      rw [hm]
      simp [Nat.add_comm 1 m]

theorem getElem_flatMap_lsb (bs : List Nat) (k : Nat) (hk : k < 8 * bs.length)
    (hk' : k < (bs.flatMap byteBitsLsbFirst).length) :
    (bs.flatMap byteBitsLsbFirst)[k] = (bs.getD (k / 8) 0).testBit (k % 8) := by
  induction bs generalizing k with
  | nil => simp at hk
  | cons b bs ih =>
    have hfm : (b :: bs).flatMap byteBitsLsbFirst
        = byteBitsLsbFirst b ++ bs.flatMap byteBitsLsbFirst := by simp
    rw [List.getElem_of_eq hfm]
    by_cases h8 : k < 8
    · rw [List.getElem_append_left (by rw [length_byteBitsLsbFirst]; exact h8)]
      rw [Nat.div_eq_of_lt h8, Nat.mod_eq_of_lt h8, List.getD_cons_zero]
      interval_cases k <;> simp [byteBitsLsbFirst_eq]
    · have hb : (byteBitsLsbFirst b).length ≤ k := by
        rw [length_byteBitsLsbFirst]; omega
      rw [List.getElem_append_right hb]
      have hlen : k - 8 < (bs.flatMap byteBitsLsbFirst).length := by
        rw [hfm] at hk'
        simp only [List.length_append, length_byteBitsLsbFirst] at hk'
        omega
      have hget := ih (k - 8) (by simp at hk; omega) hlen
      simp only [length_byteBitsLsbFirst]
      rw [hget]
      have h1 : (k - 8) / 8 = k / 8 - 1 := by omega
      have h2 : (k - 8) % 8 = k % 8 := by omega
      have h3 : 1 ≤ k / 8 := by omega
      rw [h1, h2]
      rcases Nat.exists_eq_add_of_le h3 with ⟨m, hm⟩
      rw [hm]
      simp [Nat.add_comm 1 m]

theorem testBit_shift_mod256 (n s i : Nat) (hi : i < 8) :
    ((n >>> s) % 256).testBit i = n.testBit (s + i) := by
  have h256 : (256 : Nat) = 2 ^ 8 := by norm_num
  rw [h256, Nat.testBit_mod_two_pow, Nat.testBit_shiftRight]
  simp [hi]

/-- `convert_to_bits` is the width-128 most-significant-bit-first encoding. -/
theorem convert_to_bits_eq_bigEndian (n : Nat) :
    convert_to_bits n = bigEndianBits 128 n := by
  apply List.ext_getElem
  · rw [convert_to_bits, length_flatMap_msb]
    simp [u128ToBeBytes, bigEndianBits]
  · intro k h1 h2
    have h1' : k < ((u128ToBeBytes n).flatMap byteBitsMsbFirst).length := h1
    have h2' : k < ((List.range 128).map (fun i => n.testBit (128 - 1 - i))).length := h2
    have hk : k < 128 := by
      rw [length_flatMap_msb] at h1'
      simpa [u128ToBeBytes] using h1'
    show ((u128ToBeBytes n).flatMap byteBitsMsbFirst)[k]
        = ((List.range 128).map (fun i => n.testBit (128 - 1 - i)))[k]
    rw [getElem_flatMap_msb _ k (by simp [u128ToBeBytes]; omega) h1']
    have hdiv : k / 8 < 16 := by omega
    have hgd : (u128ToBeBytes n).getD (k / 8) 0 = (n >>> (8 * (15 - k / 8))) % 256 := by
      rw [u128ToBeBytes, List.getD_eq_getElem _ _ (by simpa using hdiv)]
      simp
    rw [hgd, testBit_shift_mod256 _ _ _ (by omega)]
    rw [List.getElem_map, List.getElem_range]
    congr 1
    omega

theorem length_convert_to_bits (n : Nat) : (convert_to_bits n).length = 128 := by
  rw [convert_to_bits_eq_bigEndian, bigEndianBits]
  simp

/-- The little-endian byte / lsb-first bit pipeline of `noble6` is the
width-`8*w` least-significant-bit-first encoding. -/
theorem leBytes_flatMap_lsb_eq (w n : Nat) :
    (leBytes w n).flatMap byteBitsLsbFirst = lsbFirstBits (8 * w) n := by
  apply List.ext_getElem
  · rw [length_flatMap_lsb]
    simp [leBytes, lsbFirstBits]
  · intro k h1 h2
    have h1' : k < ((leBytes w n).flatMap byteBitsLsbFirst).length := h1
    have h2' : k < ((List.range (8 * w)).map (fun i => n.testBit i)).length := h2
    have hk : k < 8 * w := by
      rw [length_flatMap_lsb] at h1'
      simpa [leBytes] using h1'
    show ((leBytes w n).flatMap byteBitsLsbFirst)[k]
        = ((List.range (8 * w)).map (fun i => n.testBit i))[k]
    rw [getElem_flatMap_lsb _ k (by simp [leBytes]; omega) h1']
    have hdiv : k / 8 < w := by omega
    have hgd : (leBytes w n).getD (k / 8) 0 = (n >>> (8 * (k / 8))) % 256 := by
      rw [leBytes, List.getD_eq_getElem _ _ (by simpa using hdiv)]
      simp
    rw [hgd, testBit_shift_mod256 _ _ _ (Nat.mod_lt _ (by norm_num))]
    rw [List.getElem_map, List.getElem_range]
    congr 1
    omega

/-! ### Mixer/Twin supporting lemmas -/

theorem hashPreimage_eq (value nonce : Nat) :
    hashPreimage value nonce = convert_to_bits value ++ convert_to_bits nonce := by
  apply List.ext_getElem
  · simp [hashPreimage, length_convert_to_bits]
  · intro k h1 h2
    have hk : k < 256 := by simpa [hashPreimage] using h1
    have h1' : k < ((List.range 256).map (fun i =>
        if i < 128 then (convert_to_bits value).getD i false
        else (convert_to_bits nonce).getD (i - 128) false)).length := h1
    show ((List.range 256).map (fun i =>
        if i < 128 then (convert_to_bits value).getD i false
        else (convert_to_bits nonce).getD (i - 128) false))[k] = _
    rw [List.getElem_map, List.getElem_range]
    by_cases h128 : k < 128
    · rw [if_pos h128,
        List.getElem_append_left (by rw [length_convert_to_bits]; exact h128),
        List.getD_eq_getElem _ _ (by rw [length_convert_to_bits]; exact h128)]
    · rw [if_neg h128,
        List.getElem_append_right (by rw [length_convert_to_bits]; omega),
        List.getD_eq_getElem _ _ (by rw [length_convert_to_bits]; omega)]
      congr 1

theorem length_hashPreimage (value nonce : Nat) :
    (hashPreimage value nonce).length = 256 := by
  simp [hashPreimage]

theorem u128Sum_eq_sum_mod (l : List Nat) : u128Sum l = l.sum % 2 ^ 128 := by
  have key : ∀ (l : List Nat) (acc : Nat),
      l.foldl (fun acc v => (acc + v) % 2 ^ 128) (acc % 2 ^ 128) = (acc + l.sum) % 2 ^ 128 := by
    intro l
    induction l with
    | nil => intro acc; simp
    | cons v rest ih =>
      intro acc
      have : (acc % 2 ^ 128 + v) % 2 ^ 128 = (acc + v) % 2 ^ 128 := by
        omega
      simp only [List.foldl_cons, this]
      rw [ih (acc + v)]
      simp [List.sum_cons, Nat.add_assoc]
  have := key l 0
  simpa [u128Sum] using this

theorem lc_from_bits_general (bits : List Bool) :
    ∀ (acc coeff : Int),
      (bits.foldl (fun acc b => (acc.1 + (if b then acc.2 else 0), acc.2 * 2))
        (acc, coeff)).1 = acc + coeff * (bitsValLE bits : Int) := by
  induction bits with
  | nil => intro acc coeff; simp [bitsValLE]
  | cons b t ih =>
    intro acc coeff
    simp only [List.foldl_cons, bitsValLE]
    rw [ih]
    cases b <;> simp <;> ring

theorem lc_from_bits_eq (bits : List Bool) :
    lc_from_bits bits = (bitsValLE bits : Int) := by
  rw [lc_from_bits, lc_from_bits_general]
  ring

theorem bits_to_num_value_eq (bits : List Bool) :
    bits_to_num_value bits = bitsValLE bits := by
  induction bits with
  | nil => rfl
  | cons b t ih =>
    have hrev : (b :: t).reverse = t.reverse ++ [b] := by simp
    rw [bits_to_num_value, hrev, List.foldl_append]
    rw [bits_to_num_value] at ih
    rw [ih]
    simp only [List.foldl_cons, List.foldl_nil, bitsValLE]
    cases b <;> simp <;> omega

theorem convert_to_num_general (l : List Bool) :
    ∀ k, (((l.enumFrom k).map (fun p => if p.2 then 1 <<< p.1 else 0)).sum)
      = 2 ^ k * bitsValLE l := by
  induction l with
  | nil => intro k; simp [bitsValLE]
  | cons b t ih =>
    intro k
    rw [List.enumFrom_cons]
    simp only [List.map_cons, List.sum_cons, bitsValLE]
    rw [ih (k + 1)]
    cases b <;> simp [Nat.one_shiftLeft, pow_succ] <;> ring

theorem convert_to_num_eq (bits : List Bool) :
    convert_to_num bits = bitsValLE bits := by
  have h := convert_to_num_general bits 0
  simpa [convert_to_num, List.enum_eq_enumFrom] using h

theorem bitsValLE_lt (bits : List Bool) : bitsValLE bits < 2 ^ bits.length := by
  induction bits with
  | nil => simp [bitsValLE]
  | cons b t ih =>
    simp only [bitsValLE, List.length_cons, pow_succ]
    cases b <;> simp <;> omega

theorem bitsValLE_inj (a : List Bool) :
    ∀ b : List Bool, a.length = b.length → (bitsValLE a = bitsValLE b ↔ a = b) := by
  induction a with
  | nil =>
    intro b h
    cases b with
    | nil => simp
    | cons y u => simp at h
  | cons x t ih =>
    intro b h
    cases b with
    | nil => simp at h
    | cons y u =>
      simp only [List.length_cons, Nat.add_right_cancel_iff] at h
      constructor
      · intro hv
        simp only [bitsValLE] at hv
        have hxy : x = y := by cases x <;> cases y <;> simp at hv ⊢ <;> omega
        subst hxy
        have htu : bitsValLE t = bitsValLE u := by cases x <;> simp at hv <;> omega
        rw [(ih u h).mp htu]
      · intro he
        rw [he]

theorem enforce_equality_lcs_general (l : List (Bool × Bool)) :
    ∀ (a1 a2 c : Int),
      l.foldl (fun acc p =>
          (acc.1 + (if p.1 then acc.2.2 else 0),
           acc.2.1 + (if p.2 then acc.2.2 else 0),
           acc.2.2 * 2)) (a1, a2, c)
        = (a1 + c * (bitsValLE (l.map Prod.fst) : Int),
           a2 + c * (bitsValLE (l.map Prod.snd) : Int),
           c * 2 ^ l.length) := by
  induction l with
  | nil => intro a1 a2 c; simp [bitsValLE]
  | cons p t ih =>
    intro a1 a2 c
    simp only [List.foldl_cons, List.map_cons, bitsValLE, List.length_cons]
    rw [ih]
    rcases p with ⟨px, py⟩
    cases px <;> cases py <;> simp [Prod.ext_iff, pow_succ] <;>
      refine ⟨by ring, by ring, by ring⟩

theorem enforce_equality_constraint (a b : List Bool) (h : a.length = b.length) :
    (enforce_equality_lcs a b).1 - (enforce_equality_lcs a b).2.1
      = (bitsValLE a : Int) - (bitsValLE b : Int) := by
  rw [enforce_equality_lcs, enforce_equality_lcs_general]
  rw [List.map_fst_zip _ _ (le_of_eq h), List.map_snd_zip _ _ (ge_of_eq h)]
  ring

theorem enforce_equality_constraint_zero_iff (a b : List Bool) (h : a.length = b.length) :
    (enforce_equality_lcs a b).1 - (enforce_equality_lcs a b).2.1 = 0 ↔ a = b := by
  rw [enforce_equality_constraint a b h, sub_eq_zero, Int.natCast_inj]
  exact bitsValLE_inj a b h

/-! ### Chunking and parsing lemmas -/

theorem chunksOfFuel_congr {α : Type} {n : Nat} (hn : 1 ≤ n) :
    ∀ (f g : Nat) (l : List α), l.length ≤ f → l.length ≤ g →
      chunksOfFuel f n l = chunksOfFuel g n l := by
  intro f
  induction f with
  | zero =>
    intro g l hf hg
    cases l with
    | nil => cases g <;> rfl
    | cons a t => simp at hf
  | succ f ih =>
    intro g l hf hg
    cases l with
    | nil => cases g <;> rfl
    | cons a t =>
      cases g with
      | zero => simp at hg
      | succ g =>
        show (a :: t).take n :: chunksOfFuel f n ((a :: t).drop n)
            = (a :: t).take n :: chunksOfFuel g n ((a :: t).drop n)
        congr 1
        apply ih
        · simp only [List.length_drop, List.length_cons] at *
          omega
        · simp only [List.length_drop, List.length_cons] at *
          omega

theorem chunksOf_nil {α : Type} (n : Nat) : chunksOf n ([] : List α) = [] := rfl

theorem chunksOf_cons {α : Type} (n : Nat) (hn : 1 ≤ n) (l : List α) (hl : l ≠ []) :
    chunksOf n l = l.take n :: chunksOf n (l.drop n) := by
  cases l with
  | nil => exact absurd rfl hl
  | cons a t =>
    show (a :: t).take n :: chunksOfFuel t.length n ((a :: t).drop n) = _
    congr 1
    apply chunksOfFuel_congr hn
    · simp only [List.length_drop, List.length_cons]
      omega
    · exact le_refl _

theorem bitsToNumList_eq (l : List (List Bool)) :
    ∀ cs : List Int, bitsToNumList cs l
      = (l.map bits_to_num_value,
         cs ++ l.map (fun c => lc_from_bits c - (bits_to_num_value c : Int))) := by
  induction l with
  | nil => intro cs; simp [bitsToNumList]
  | cons c rest ih =>
    intro cs
    simp only [bitsToNumList, bits_to_num, List.map_cons]
    rw [ih]
    simp [List.append_assoc]

theorem CChainState.from_bits_ok_1440 (cs : List Int) (bits : List Bool)
    (hb : bits.length = 1440)
    (hf : convert_to_num ((bits.drop 1280).take 16) < 8)
    (ht : convert_to_num (((bits.drop 1280).drop 16).take 16) < 8) :
    CChainState.from_bits cs bits = (.ok (parsedState bits), cs ++ parseTrace bits) := by
  have hlen : (bits.drop 1280).length = 160 := by simp [hb]
  rw [CChainState.from_bits]
  norm_num
  rw [bitsToNumList_eq]
  rw [if_neg (by omega)]
  rw [CTransaction.from_bits]
  rw [if_neg (by rw [hlen]; norm_num)]
  rw [if_neg (by omega), if_neg (by omega)]
  simp only [bits_to_num]
  rw [parsedState, parseTrace]
  simp [List.append_assoc]

theorem merkle_root_hash_eight (sha256 : List Bool → List Bool) (st : CChainState)
    (b0 b1 b2 b3 b4 b5 b6 b7 : List Bool)
    (h : st.balances_bits = [b0, b1, b2, b3, b4, b5, b6, b7]) :
    st.merkle_root_hash sha256 = .ok (specMerkleRoot8 sha256 b0 b1 b2 b3 b4 b5 b6 b7) := by
  rw [CChainState.merkle_root_hash, h]
  rfl

theorem list_length_eight {α : Type} (l : List α) (h : l.length = 8) :
    ∃ a b c d e f g h', l = [a, b, c, d, e, f, g, h'] := by
  rcases l with _ | ⟨a, _ | ⟨b, _ | ⟨c, _ | ⟨d, _ | ⟨e, _ | ⟨f, _ | ⟨g, _ | ⟨h', rest⟩⟩⟩⟩⟩⟩⟩⟩ <;>
    simp only [List.length_cons, List.length_nil] at h
  · omega
  · omega
  · omega
  · omega
  · omega
  · omega
  · omega
  · omega
  · have : rest = [] := by
      rw [← List.length_eq_zero]
      omega
    subst this
    exact ⟨a, b, c, d, e, f, g, h', rfl⟩

theorem chunksOf128_1024 (l : List Bool) (h : l.length = 1024) :
    chunksOf 128 l =
      [l.take 128, (l.drop 128).take 128, (l.drop 256).take 128,
       (l.drop 384).take 128, (l.drop 512).take 128, (l.drop 640).take 128,
       (l.drop 768).take 128, (l.drop 896).take 128] := by
  have hne : ∀ k : Nat, k < 1024 → l.drop k ≠ [] := by
    intro k hk
    apply List.ne_nil_of_length_pos
    simp [h]
    omega
  rw [chunksOf_cons 128 (by norm_num) l (by have := hne 0 (by norm_num); simpa using this)]
  rw [chunksOf_cons 128 (by norm_num) _ (hne 128 (by norm_num))]
  simp only [List.drop_drop]
  norm_num
  rw [chunksOf_cons 128 (by norm_num) _ (hne 256 (by norm_num))]
  simp only [List.drop_drop]
  norm_num
  rw [chunksOf_cons 128 (by norm_num) _ (hne 384 (by norm_num))]
  simp only [List.drop_drop]
  norm_num
  rw [chunksOf_cons 128 (by norm_num) _ (hne 512 (by norm_num))]
  simp only [List.drop_drop]
  norm_num
  rw [chunksOf_cons 128 (by norm_num) _ (hne 640 (by norm_num))]
  simp only [List.drop_drop]
  norm_num
  rw [chunksOf_cons 128 (by norm_num) _ (hne 768 (by norm_num))]
  simp only [List.drop_drop]
  norm_num
  rw [chunksOf_cons 128 (by norm_num) _ (hne 896 (by norm_num))]
  simp only [List.drop_drop]
  norm_num
  have hnil : l.drop 1024 = [] := by
    apply List.eq_nil_of_length_eq_zero
    simp [h]
  rw [hnil, chunksOf_nil]

theorem parsedState_merkle (sha256 : List Bool → List Bool) (bits : List Bool)
    (hb : bits.length = 1440) :
    (parsedState bits).merkle_root_hash sha256 = .ok (stateMerkleRoot sha256 bits) := by
  apply merkle_root_hash_eight
  show chunksOf 128 ((bits.drop 320).take 1024) = _
  rw [chunksOf128_1024 _ (by simp [hb])]

/-- Full characterization of a successful `ReachCircuit::synthesize` run on
two length-1440 payloads (the only total length whose transaction slice
passes the `len == 160` check) with in-range account indices. -/
theorem reach_synthesize_ok_1440 (sha256 : List Bool → List Bool) (cs : List Int)
    (old_payload new_payload : List Bool)
    (ho : old_payload.length = 1440) (hn : new_payload.length = 1440)
    (hof : txFromOf old_payload < 8) (hot : txToOf old_payload < 8)
    (hnf : txFromOf new_payload < 8) (hnt : txToOf new_payload < 8) :
    ReachCircuit.synthesize sha256 cs old_payload new_payload =
      (.ok (),
       (enforce_equality
          (enforce_equality
            ((cs ++ parseTrace old_payload ++ parseTrace new_payload)
              ++ [((parsedState new_payload).height : Int)
                  - ((parsedState old_payload).height : Int) - 1])
            (parsedState old_payload).root_hash (stateMerkleRoot sha256 old_payload))
          (parsedState new_payload).root_hash (stateMerkleRoot sha256 new_payload))
        ++ (if txFromOf new_payload = txToOf new_payload then
              [((parsedState new_payload).balances.getD (txToOf new_payload) 0 : Int)
                - ((parsedState old_payload).balances.getD (txToOf new_payload) 0 : Int)
                - (txAmountOf new_payload : Int)]
            else
              [((parsedState old_payload).balances.getD (txFromOf new_payload) 0 : Int)
                - ((parsedState new_payload).balances.getD (txFromOf new_payload) 0 : Int)
                - (txAmountOf new_payload : Int),
               ((parsedState new_payload).balances.getD (txToOf new_payload) 0 : Int)
                - ((parsedState old_payload).balances.getD (txToOf new_payload) 0 : Int)
                - (txAmountOf new_payload : Int)])) := by
  have h1 := CChainState.from_bits_ok_1440 cs old_payload ho hof hot
  have h2 := CChainState.from_bits_ok_1440 (cs ++ parseTrace old_payload) new_payload hn hnf hnt
  have hm1 := parsedState_merkle sha256 old_payload ho
  have hm2 := parsedState_merkle sha256 new_payload hn
  have htx : (parsedState new_payload).tx
      = some { from' := txFromOf new_payload, to' := txToOf new_payload,
               amount := txAmountOf new_payload } := rfl
  rw [ReachCircuit.synthesize, h1]
  simp only [h2, hm1, hm2, htx, Option.isNone_some, Bool.false_eq_true, if_false]
  by_cases hft : txFromOf new_payload = txToOf new_payload
  · rw [if_pos hft, if_pos hft]
  · rw [if_neg hft, if_neg hft]

/-! ## Claim theorems -/

/-- C1: for every Mixer witness, `synthesize` fails with `Unsatisfiable`
exactly when the (u128) sum of the input values is strictly below the (u128)
sum of the output values, it fails with no other error, and on failure the
constraint system is unchanged; likewise for every Twin witness with
`input_amount < output_amount`. -/
theorem C1_conservation_unsatisfiable (sha256 : List Bool → List Bool) :
    (∀ (m : Mixer) (cs : List MixEvent),
      ((Mixer.synthesize sha256 m cs).1 = .error .unsatisfiable
        ↔ m.inputs_sum < m.outputs_sum)
      ∧ ∀ e, (Mixer.synthesize sha256 m cs).1 = .error e
          → e = .unsatisfiable ∧ (Mixer.synthesize sha256 m cs).2 = cs)
    ∧ (∀ (t : Twin) (cs : List MixEvent),
      ((Twin.synthesize sha256 t cs).1 = .error .unsatisfiable
        ↔ t.input_amount < t.output_amount)
      ∧ ∀ e, (Twin.synthesize sha256 t cs).1 = .error e
          → e = .unsatisfiable ∧ (Twin.synthesize sha256 t cs).2 = cs) := by
  constructor
  · intro m cs
    by_cases h : m.inputs_sum < m.outputs_sum
    · rw [Mixer.synthesize, if_pos h]
      exact ⟨by simp [h], fun e he => by simp at he; simp [he]⟩
    · rw [Mixer.synthesize, if_neg h]
      exact ⟨by simp [h], fun e he => by simp at he⟩
  · intro t cs
    by_cases h : t.input_amount < t.output_amount
    · rw [Twin.synthesize, if_pos h]
      exact ⟨by simp [h], fun e he => by simp at he; simp [he]⟩
    · rw [Twin.synthesize, if_neg h]
      exact ⟨by simp [h], fun e he => by simp at he⟩

/-- Witness for C1 at a violating Mixer witness (1 < 2) and a violating
Twin witness (2 < 3). -/
theorem C1_conservation_unsatisfiable_witness :
    ((Mixer.synthesize constSha
        { inputs := [{ value := 1, nonce := 1 }],
          outputs := [{ value := 2, nonce := 2 }] } []).1 = .error .unsatisfiable
      ∧ (Mixer.synthesize constSha
        { inputs := [{ value := 1, nonce := 1 }],
          outputs := [{ value := 2, nonce := 2 }] } []).2 = [])
    ∧ ((Twin.synthesize constSha
        { input_amount := 2, input_nonce := 10,
          output_amount := 3, output_nonce := 20 } []).1 = .error .unsatisfiable) := by
  have h := C1_conservation_unsatisfiable constSha
  refine ⟨⟨?_, ?_⟩, ?_⟩
  · exact ((h.1 _ []).1).mpr (by decide)
  · exact ((h.1 _ []).2 .unsatisfiable (((h.1 _ []).1).mpr (by decide))).2
  · exact ((h.2 _ []).1).mpr (by decide)

/-- C10: the Mixer conservation sums are u128 sums, i.e. the unbounded sums
reduced modulo `2^128`; in particular the witness with inputs
`[2^127, 2^127]` and output `[1]` conserves value over the integers yet is
rejected as `Unsatisfiable` because its wrapped input sum is `0 < 1`. -/
theorem C10_wrapping_sums :
    (∀ m : Mixer,
      m.inputs_sum = (m.inputs.map (fun a => a.value)).sum % 2 ^ 128
      ∧ m.outputs_sum = (m.outputs.map (fun a => a.value)).sum % 2 ^ 128)
    ∧ (∃ m : Mixer,
        (m.outputs.map (fun a => a.value)).sum ≤ (m.inputs.map (fun a => a.value)).sum
        ∧ m.inputs_sum < m.outputs_sum
        ∧ ∀ (sha256 : List Bool → List Bool) (cs : List MixEvent),
            (Mixer.synthesize sha256 m cs).1 = .error .unsatisfiable) := by
  constructor
  · intro m
    exact ⟨u128Sum_eq_sum_mod _, u128Sum_eq_sum_mod _⟩
  · refine ⟨{ inputs := [{ value := 2 ^ 127, nonce := 1 }, { value := 2 ^ 127, nonce := 2 }],
              outputs := [{ value := 1, nonce := 3 }] }, by decide, by decide, ?_⟩
    intro sha256 cs
    rw [Mixer.synthesize, if_pos (by decide)]

/-- C9: twin verification factors through the byte concatenation
`from_hash ‖ to_hash`; two public inputs with the same concatenation are
indistinguishable to `verify`, whatever the collaborator primitives do. -/
theorem C9_verify_depends_only_on_concatenation
    (verify_proof : List Nat → List Nat → List Int → Bool)
    (compute_multipacking : List Bool → List Int)
    (bytes_to_bits : List Nat → List Bool)
    (vk_bytes proof : List Nat) (i1 i2 : TwinInput)
    (h : i1.from_hash ++ i1.to_hash = i2.from_hash ++ i2.to_hash) :
    Twin.verify verify_proof compute_multipacking bytes_to_bits vk_bytes proof i1
      = Twin.verify verify_proof compute_multipacking bytes_to_bits vk_bytes proof i2 := by
  rw [Twin.verify, Twin.verify, h]

/-- Witness for C9: `[0] ‖ [1,2]` and `[0,1] ‖ [2]` have the same
concatenation, so `verify` cannot tell the two apart. -/
theorem C9_verify_depends_only_on_concatenation_witness :
    Twin.verify (fun _ _ _ => true) (fun _ => []) (fun _ => []) [] []
        { from_hash := [0], to_hash := [1, 2] }
      = Twin.verify (fun _ _ _ => true) (fun _ => []) (fun _ => []) [] []
        { from_hash := [0, 1], to_hash := [2] } :=
  C9_verify_depends_only_on_concatenation _ _ _ _ _ _ _ (by decide)

/-- C2 (divergence witness): a current state carrying exactly one
transaction, encoded by `ChainState::to_bits` (1504 bits), is rejected by
`CChainState::from_bits` with `Unsatisfiable`: the transaction slice is cut
at bit offset `8*32 + 8*8*16 = 1280` — omitting the 64 height bits — so it
has 224 bits and fails the `len == 160` check.  The same happens to every
transaction-free payload (1344 bits, slice of 64 bits), so recursive
synthesis fails on every `to_bits`-encoded pair. -/
theorem C2_transaction_parse_rejected :
    c2FailingPayload.length = 1504
    ∧ (CChainState.from_bits [] c2FailingPayload).1 = .error SynthesisError.unsatisfiable
    ∧ base_payload.length = 1344
    ∧ (CChainState.from_bits [] base_payload).1 = .error SynthesisError.unsatisfiable := by
  exact ⟨by decide, rfl, by decide, rfl⟩

/-- C7: `CTransaction::from_bits` on a 160-bit transaction encoding rejects
any out-of-range account index (`from ≥ 8` or `to ≥ 8`) with `Violation`,
leaving the constraint system untouched (so before any balance-delta
constraint); in-range indices are accepted, emitting only the amount's
`bits_to_num` constraint. -/
theorem C7_index_bounds_violation (cs : List Int) (bits : List Bool)
    (hb : bits.length = 160) :
    ((8 ≤ convert_to_num (bits.take 16) ∨ 8 ≤ convert_to_num ((bits.drop 16).take 16))
      → CTransaction.from_bits cs bits = (.error SynthesisError.violation, cs))
    ∧ ((convert_to_num (bits.take 16) < 8 ∧ convert_to_num ((bits.drop 16).take 16) < 8)
      → CTransaction.from_bits cs bits
          = (.ok { from' := convert_to_num (bits.take 16),
                   to' := convert_to_num ((bits.drop 16).take 16),
                   amount := bits_to_num_value ((bits.drop 32).take 128) },
             cs ++ [lc_from_bits ((bits.drop 32).take 128)
                    - (bits_to_num_value ((bits.drop 32).take 128) : Int)])) := by
  have hlen : ¬ (bits.length ≠ 8 * (4 + 16)) := by omega
  constructor
  · intro h
    rcases h with h | h
    · rw [CTransaction.from_bits, if_neg hlen, if_pos h]
    · by_cases hf : 8 ≤ convert_to_num (bits.take 16)
      · rw [CTransaction.from_bits, if_neg hlen, if_pos hf]
      · rw [CTransaction.from_bits, if_neg hlen, if_neg hf, if_pos h]
  · intro ⟨hf, ht⟩
    rw [CTransaction.from_bits, if_neg hlen, if_neg (by omega), if_neg (by omega)]
    rfl

/-- Witness for C7: a 160-bit encoding with `from = 9` is rejected with
`Violation` and an unchanged constraint system. -/
theorem C7_index_bounds_violation_witness :
    CTransaction.from_bits []
        ([true, false, false, true] ++ List.replicate 156 false)
      = (.error SynthesisError.violation, []) :=
  (C7_index_bounds_violation [] _ (by decide)).1 (by decide)

theorem hashAmounts_fst (sha256 : List Bool → List Bool) (amounts : List Amount) :
    ∀ cs : List MixEvent,
      (hashAmounts sha256 cs amounts).1
        = amounts.map (fun a => sha256 (hashPreimage a.value a.nonce)) := by
  induction amounts with
  | nil => intro cs; rfl
  | cons a rest ih =>
    intro cs
    simp only [hashAmounts, Amount.hash, List.map_cons]
    rw [ih]

theorem foldPairs_fst (sha256 : List Bool → List Bool) (hashes : List (List Bool)) :
    ∀ (accBits : List Bool) (accCs : List MixEvent),
      (hashes.foldl
        (fun acc h =>
          let combined_bits := acc.1 ++ h
          (sha256 combined_bits, acc.2 ++ [MixEvent.sha256Gadget combined_bits]))
        (accBits, accCs)).1
      = hashes.foldl (fun acc h => sha256 (acc ++ h)) accBits := by
  induction hashes with
  | nil => intro accBits accCs; rfl
  | cons h t ih =>
    intro accBits accCs
    simp only [List.foldl_cons]
    rw [ih]

theorem chainFold_length (sha256 : List Bool → List Bool)
    (hsha : ∀ x, (sha256 x).length = 256) (hashes : List (List Bool)) :
    ∀ accBits : List Bool, hashes ≠ []
      → (hashes.foldl (fun acc h => sha256 (acc ++ h)) accBits).length = 256 := by
  induction hashes with
  | nil => intro accBits hne; exact absurd rfl hne
  | cons h t ih =>
    intro accBits hne
    simp only [List.foldl_cons]
    cases t with
    | nil => exact hsha _
    | cons h2 t2 => exact ih _ (by simp)

/-- C5: `recursive_hash` is the left fold that starts from the empty
accumulator and hashes `acc ‖ commit` per step, over the commitments in
order; `Mixer::synthesize` packs exactly the fold over
`inputs ++ outputs` (inputs first, then outputs); with a 256-bit hash the
resulting digest has 256 bits whenever there is at least one amount. -/
theorem C5_recursive_hash_left_fold (sha256 : List Bool → List Bool) :
    (∀ (cs : List MixEvent) (amounts : List Amount),
      (Mixer.recursive_hash sha256 cs amounts).1
        = (amounts.map (fun a => sha256 (hashPreimage a.value a.nonce))).foldl
            (fun acc h => sha256 (acc ++ h)) [])
    ∧ (∀ (m : Mixer) (cs cs' : List MixEvent) (u : Unit),
        Mixer.synthesize sha256 m cs = (.ok u, cs')
        → ∃ events : List MixEvent,
            cs' = events ++ [MixEvent.packInputs
              (((m.inputs ++ m.outputs).map
                  (fun a => sha256 (hashPreimage a.value a.nonce))).foldl
                (fun acc h => sha256 (acc ++ h)) [])])
    ∧ ((∀ x, (sha256 x).length = 256)
        → ∀ (cs : List MixEvent) (amounts : List Amount), amounts ≠ []
          → ((Mixer.recursive_hash sha256 cs amounts).1).length = 256) := by
  have hfold : ∀ (cs : List MixEvent) (amounts : List Amount),
      (Mixer.recursive_hash sha256 cs amounts).1
        = (amounts.map (fun a => sha256 (hashPreimage a.value a.nonce))).foldl
            (fun acc h => sha256 (acc ++ h)) [] := by
    intro cs amounts
    rw [Mixer.recursive_hash]
    rw [foldPairs_fst, hashAmounts_fst]
  refine ⟨hfold, ?_, ?_⟩
  · intro m cs cs' u hok
    by_cases h : m.inputs_sum < m.outputs_sum
    · rw [Mixer.synthesize, if_pos h] at hok
      simp at hok
    · rw [Mixer.synthesize, if_neg h] at hok
      refine ⟨(Mixer.recursive_hash sha256 cs (m.inputs ++ m.outputs)).2, ?_⟩
      have hcs : cs' = (Mixer.recursive_hash sha256 cs (m.inputs ++ m.outputs)).2
          ++ [MixEvent.packInputs ((Mixer.recursive_hash sha256 cs (m.inputs ++ m.outputs)).1)] := by
        have := congrArg Prod.snd hok
        simpa using this.symm
      rw [hcs, hfold]
  · intro hsha cs amounts hne
    rw [hfold]
    exact chainFold_length sha256 hsha _ [] (by simpa using hne)

/-- Witness for C5: a conserving two-input/one-output Mixer witness, with a
concrete 256-bit hash stand-in. -/
theorem C5_recursive_hash_left_fold_witness :
    ((Mixer.recursive_hash constSha [] [{ value := 1, nonce := 1 }]).1
      = ([constSha (hashPreimage 1 1)]).foldl (fun acc h => constSha (acc ++ h)) [])
    ∧ (∃ events : List MixEvent,
        (Mixer.synthesize constSha
          { inputs := [{ value := 1, nonce := 1 }, { value := 2, nonce := 2 }],
            outputs := [{ value := 3, nonce := 2 }] } []).2
          = events ++ [MixEvent.packInputs
              ((([{ value := 1, nonce := 1 }, { value := 2, nonce := 2 },
                  { value := 3, nonce := 2 }] : List Amount).map
                  (fun a => constSha (hashPreimage a.value a.nonce))).foldl
                (fun acc h => constSha (acc ++ h)) [])])
    ∧ ((Mixer.recursive_hash constSha [] [{ value := 1, nonce := 1 }]).1).length = 256 := by
  have h := C5_recursive_hash_left_fold constSha
  refine ⟨h.1 [] _, ?_, ?_⟩
  · exact h.2.1
      { inputs := [{ value := 1, nonce := 1 }, { value := 2, nonce := 2 }],
        outputs := [{ value := 3, nonce := 2 }] }
      [] _ () (Prod.ext_iff.mpr ⟨rfl, rfl⟩)
  · exact h.2.2 (fun x => by simp [constSha]) [] _ (by simp)

/-- C6: the commitment gadget (mixer `Amount::hash` and twin `hash_amount`
alike) hashes the 256-bit preimage made of the 128-bit big-endian value
bits followed by the 128-bit big-endian nonce bits, and with a 256-bit hash
returns a 256-bit digest. -/
theorem C6_commitment_preimage (sha256 : List Bool → List Bool) :
    (∀ (value nonce : Nat), (hashPreimage value nonce).length = 256)
    ∧ (∀ (cs : List MixEvent) (a : Amount),
        (Amount.hash sha256 cs a).1
          = sha256 (bigEndianBits 128 a.value ++ bigEndianBits 128 a.nonce))
    ∧ (∀ (cs : List MixEvent) (amount nonce : Nat),
        (hash_amount sha256 cs amount nonce).1
          = sha256 (bigEndianBits 128 amount ++ bigEndianBits 128 nonce))
    ∧ ((∀ x, (sha256 x).length = 256)
        → ∀ (cs : List MixEvent) (a : Amount), ((Amount.hash sha256 cs a).1).length = 256) := by
  refine ⟨length_hashPreimage, ?_, ?_, ?_⟩
  · intro cs a
    rw [Amount.hash]
    rw [hashPreimage_eq, convert_to_bits_eq_bigEndian, convert_to_bits_eq_bigEndian]
  · intro cs amount nonce
    rw [hash_amount]
    rw [hashPreimage_eq, convert_to_bits_eq_bigEndian, convert_to_bits_eq_bigEndian]
  · intro hsha cs a
    exact hsha _

/-- Witness for C6 at `Amount { value := 1, nonce := 2 }` with a concrete
256-bit hash stand-in. -/
theorem C6_commitment_preimage_witness :
    (Amount.hash constSha [] { value := 1, nonce := 2 }).1
      = constSha (bigEndianBits 128 1 ++ bigEndianBits 128 2)
    ∧ ((Amount.hash constSha [] { value := 1, nonce := 2 }).1).length = 256 := by
  have h := C6_commitment_preimage constSha
  exact ⟨h.2.1 [] _, h.2.2.2 (fun x => by simp [constSha]) [] _⟩

theorem flatMap_flatMap {α β γ : Type} (l : List α) (f : α → List β) (g : β → List γ) :
    (l.flatMap f).flatMap g = l.flatMap (fun x => (f x).flatMap g) := by
  induction l with
  | nil => rfl
  | cons x t ih => simp [List.flatMap_cons, List.flatMap_append, ih]

theorem ChainState_to_bits_decomposition (s : ChainState) :
    s.to_bits
      = lsbFirstBits 64 s.height
        ++ s.root_hash.flatMap byteBitsLsbFirst
        ++ s.balances.flatMap (fun b => lsbFirstBits 128 b)
        ++ (match s.tx with
            | some tx => lsbFirstBits 16 tx.from' ++ lsbFirstBits 16 tx.to'
                ++ lsbFirstBits 128 tx.amount
            | none => []) := by
  have h64 : (8 : Nat) * 8 = 64 := by norm_num
  have h128 : (8 : Nat) * 16 = 128 := by norm_num
  have h16 : (8 : Nat) * 2 = 16 := by norm_num
  rcases s with ⟨height, root_hash, balances, tx⟩
  cases tx with
  | none =>
    show ((leBytes 8 height ++ root_hash ++ balances.flatMap (fun b => leBytes 16 b))
        ++ []).flatMap byteBitsLsbFirst = _
    simp only [List.append_nil, List.flatMap_append]
    rw [leBytes_flatMap_lsb_eq, h64, flatMap_flatMap]
    have : (fun b => (leBytes 16 b).flatMap byteBitsLsbFirst)
        = (fun b : Nat => lsbFirstBits 128 b) := by
      funext b
      rw [leBytes_flatMap_lsb_eq, h128]
    rw [this]
  | some tx =>
    show ((leBytes 8 height ++ root_hash ++ balances.flatMap (fun b => leBytes 16 b))
        ++ tx.to_bytes).flatMap byteBitsLsbFirst = _
    simp only [List.flatMap_append, Transaction.to_bytes]
    rw [leBytes_flatMap_lsb_eq, h64, flatMap_flatMap]
    have : (fun b => (leBytes 16 b).flatMap byteBitsLsbFirst)
        = (fun b : Nat => lsbFirstBits 128 b) := by
      funext b
      rw [leBytes_flatMap_lsb_eq, h128]
    rw [this]
    rw [leBytes_flatMap_lsb_eq, h16, leBytes_flatMap_lsb_eq, h16,
      leBytes_flatMap_lsb_eq, h128]

/-- C8 counterexample: the height field of `ChainState::to_bits` is not
most-significant-bit-first — for height 1 the first emitted bit is already
the set least-significant bit, unlike the big-endian 64-bit encoding of 1. -/
theorem C8_counterexample :
    ¬ ((ChainState.to_bits
        { height := 1, root_hash := List.replicate 32 0,
          balances := List.replicate 8 0, tx := none }).take 64
      = bigEndianBits 64 1) := by
  decide

/-- C8 (amended): `convert_to_bits` is deterministic, exactly 128 bits, and
most-significant bit first; the `ChainState::to_bits` fields are likewise
fixed width (64 for height, 8-per-byte for the root hash, 128 per balance,
16/16/128 for the transaction) but least-significant bit first with
little-endian byte order. -/
theorem C8_bit_encoding_orders :
    (∀ n : Nat, convert_to_bits n = bigEndianBits 128 n
      ∧ (convert_to_bits n).length = 128)
    ∧ (∀ s : ChainState,
        s.to_bits
          = lsbFirstBits 64 s.height
            ++ s.root_hash.flatMap byteBitsLsbFirst
            ++ s.balances.flatMap (fun b => lsbFirstBits 128 b)
            ++ (match s.tx with
                | some tx => lsbFirstBits 16 tx.from' ++ lsbFirstBits 16 tx.to'
                    ++ lsbFirstBits 128 tx.amount
                | none => [])) :=
  ⟨fun n => ⟨convert_to_bits_eq_bigEndian n, length_convert_to_bits n⟩,
   ChainState_to_bits_decomposition⟩

/-- C3: on every fully parsed transition, a mint (`from == to`) emits
exactly one balance-delta constraint, `current.balances[to] -
previous.balances[to] - amount`, and a transfer (`from ≠ to`) emits exactly
the two constraints `previous.balances[from] - current.balances[from] -
amount` and `current.balances[to] - previous.balances[to] - amount`; the
trace equation pins the whole constraint list, so no further balance
constraint is emitted. -/
theorem C3_balance_delta_constraints (sha256 : List Bool → List Bool) (cs : List Int)
    (old_payload new_payload : List Bool)
    (ho : old_payload.length = 1440) (hn : new_payload.length = 1440)
    (hof : txFromOf old_payload < 8) (hot : txToOf old_payload < 8)
    (hnf : txFromOf new_payload < 8) (hnt : txToOf new_payload < 8) :
    (txFromOf new_payload = txToOf new_payload →
      (ReachCircuit.synthesize sha256 cs old_payload new_payload
        = (.ok (),
           enforce_equality
              (enforce_equality
                ((cs ++ parseTrace old_payload ++ parseTrace new_payload)
                  ++ [((parsedState new_payload).height : Int)
                      - ((parsedState old_payload).height : Int) - 1])
                (parsedState old_payload).root_hash (stateMerkleRoot sha256 old_payload))
              (parsedState new_payload).root_hash (stateMerkleRoot sha256 new_payload)
            ++ [((parsedState new_payload).balances.getD (txToOf new_payload) 0 : Int)
                - ((parsedState old_payload).balances.getD (txToOf new_payload) 0 : Int)
                - (txAmountOf new_payload : Int)]))
      ∧ (((parsedState new_payload).balances.getD (txToOf new_payload) 0 : Int)
            - ((parsedState old_payload).balances.getD (txToOf new_payload) 0 : Int)
            - (txAmountOf new_payload : Int) = 0
          ↔ (parsedState new_payload).balances.getD (txToOf new_payload) 0
            = (parsedState old_payload).balances.getD (txToOf new_payload) 0
              + txAmountOf new_payload))
    ∧ (txFromOf new_payload ≠ txToOf new_payload →
      (ReachCircuit.synthesize sha256 cs old_payload new_payload
        = (.ok (),
           enforce_equality
              (enforce_equality
                ((cs ++ parseTrace old_payload ++ parseTrace new_payload)
                  ++ [((parsedState new_payload).height : Int)
                      - ((parsedState old_payload).height : Int) - 1])
                (parsedState old_payload).root_hash (stateMerkleRoot sha256 old_payload))
              (parsedState new_payload).root_hash (stateMerkleRoot sha256 new_payload)
            ++ [((parsedState old_payload).balances.getD (txFromOf new_payload) 0 : Int)
                - ((parsedState new_payload).balances.getD (txFromOf new_payload) 0 : Int)
                - (txAmountOf new_payload : Int),
                ((parsedState new_payload).balances.getD (txToOf new_payload) 0 : Int)
                - ((parsedState old_payload).balances.getD (txToOf new_payload) 0 : Int)
                - (txAmountOf new_payload : Int)]))
      ∧ (((parsedState old_payload).balances.getD (txFromOf new_payload) 0 : Int)
            - ((parsedState new_payload).balances.getD (txFromOf new_payload) 0 : Int)
            - (txAmountOf new_payload : Int) = 0
          ↔ ((parsedState old_payload).balances.getD (txFromOf new_payload) 0 : Int)
              - (txAmountOf new_payload : Int)
            = ((parsedState new_payload).balances.getD (txFromOf new_payload) 0 : Int))
      ∧ (((parsedState new_payload).balances.getD (txToOf new_payload) 0 : Int)
            - ((parsedState old_payload).balances.getD (txToOf new_payload) 0 : Int)
            - (txAmountOf new_payload : Int) = 0
          ↔ (parsedState new_payload).balances.getD (txToOf new_payload) 0
            = (parsedState old_payload).balances.getD (txToOf new_payload) 0
              + txAmountOf new_payload)) := by
  have hmaster := reach_synthesize_ok_1440 sha256 cs old_payload new_payload
    ho hn hof hot hnf hnt
  constructor
  · intro hft
    constructor
    · rw [hmaster, if_pos hft]
    · omega
  · intro hft
    constructor
    · rw [hmaster, if_neg hft]
    · exact ⟨by omega, by omega⟩

/-- Witness for C3 at the all-zero pair of 1440-bit payloads (a mint with
`from = to = 0` and amount 0). -/
theorem C3_balance_delta_constraints_witness :
    ReachCircuit.synthesize constSha [] (List.replicate 1440 false) (List.replicate 1440 false)
      = (.ok (),
         enforce_equality
            (enforce_equality
              (([] ++ parseTrace (List.replicate 1440 false)
                  ++ parseTrace (List.replicate 1440 false))
                ++ [((parsedState (List.replicate 1440 false)).height : Int)
                    - ((parsedState (List.replicate 1440 false)).height : Int) - 1])
              (parsedState (List.replicate 1440 false)).root_hash
              (stateMerkleRoot constSha (List.replicate 1440 false)))
            (parsedState (List.replicate 1440 false)).root_hash
            (stateMerkleRoot constSha (List.replicate 1440 false))
          ++ [((parsedState (List.replicate 1440 false)).balances.getD
                (txToOf (List.replicate 1440 false)) 0 : Int)
              - ((parsedState (List.replicate 1440 false)).balances.getD
                (txToOf (List.replicate 1440 false)) 0 : Int)
              - (txAmountOf (List.replicate 1440 false) : Int)]) :=
  ((C3_balance_delta_constraints constSha [] _ _ (by simp) (by simp)
    (by decide) (by decide) (by decide) (by decide)).1 (by decide)).1

/-- C4: on every fully parsed transition, the circuit emits, for each of
the two states, one constraint equating the weighted encoding of the
declared root hash with the weighted encoding of the Merkle root recomputed
from that state's eight balance bit-slices — a three-level binary tree
whose leaves are the hashes of the individual balance encodings, pairwise
hashed `left ‖ right` up to a single 256-bit root; the constraint is zero
exactly when the declared root equals the recomputed root. -/
theorem C4_merkle_root_constraints (sha256 : List Bool → List Bool)
    (hsha : ∀ x, (sha256 x).length = 256) (cs : List Int)
    (old_payload new_payload : List Bool)
    (ho : old_payload.length = 1440) (hn : new_payload.length = 1440)
    (hof : txFromOf old_payload < 8) (hot : txToOf old_payload < 8)
    (hnf : txFromOf new_payload < 8) (hnt : txToOf new_payload < 8) :
    ∃ delta : List Int,
      ReachCircuit.synthesize sha256 cs old_payload new_payload
        = (.ok (),
           (((cs ++ parseTrace old_payload ++ parseTrace new_payload)
              ++ [((parsedState new_payload).height : Int)
                  - ((parsedState old_payload).height : Int) - 1])
             ++ [(enforce_equality_lcs (parsedState old_payload).root_hash
                    (stateMerkleRoot sha256 old_payload)).1
                 - (enforce_equality_lcs (parsedState old_payload).root_hash
                    (stateMerkleRoot sha256 old_payload)).2.1]
             ++ [(enforce_equality_lcs (parsedState new_payload).root_hash
                    (stateMerkleRoot sha256 new_payload)).1
                 - (enforce_equality_lcs (parsedState new_payload).root_hash
                    (stateMerkleRoot sha256 new_payload)).2.1])
           ++ delta)
      ∧ ((enforce_equality_lcs (parsedState old_payload).root_hash
            (stateMerkleRoot sha256 old_payload)).1
          - (enforce_equality_lcs (parsedState old_payload).root_hash
            (stateMerkleRoot sha256 old_payload)).2.1 = 0
        ↔ (parsedState old_payload).root_hash = stateMerkleRoot sha256 old_payload)
      ∧ ((enforce_equality_lcs (parsedState new_payload).root_hash
            (stateMerkleRoot sha256 new_payload)).1
          - (enforce_equality_lcs (parsedState new_payload).root_hash
            (stateMerkleRoot sha256 new_payload)).2.1 = 0
        ↔ (parsedState new_payload).root_hash = stateMerkleRoot sha256 new_payload)
      ∧ (parsedState old_payload).balances_bits
          = [((old_payload.drop 320).take 1024).take 128,
             (((old_payload.drop 320).take 1024).drop 128).take 128,
             (((old_payload.drop 320).take 1024).drop 256).take 128,
             (((old_payload.drop 320).take 1024).drop 384).take 128,
             (((old_payload.drop 320).take 1024).drop 512).take 128,
             (((old_payload.drop 320).take 1024).drop 640).take 128,
             (((old_payload.drop 320).take 1024).drop 768).take 128,
             (((old_payload.drop 320).take 1024).drop 896).take 128]
      ∧ stateMerkleRoot sha256 old_payload
          = specMerkleRoot8 sha256
              (((old_payload.drop 320).take 1024).take 128)
              ((((old_payload.drop 320).take 1024).drop 128).take 128)
              ((((old_payload.drop 320).take 1024).drop 256).take 128)
              ((((old_payload.drop 320).take 1024).drop 384).take 128)
              ((((old_payload.drop 320).take 1024).drop 512).take 128)
              ((((old_payload.drop 320).take 1024).drop 640).take 128)
              ((((old_payload.drop 320).take 1024).drop 768).take 128)
              ((((old_payload.drop 320).take 1024).drop 896).take 128)
      ∧ (stateMerkleRoot sha256 old_payload).length = 256
      ∧ (stateMerkleRoot sha256 new_payload).length = 256 := by
  have hmaster := reach_synthesize_ok_1440 sha256 cs old_payload new_payload
    ho hn hof hot hnf hnt
  have hrootlen_old : (parsedState old_payload).root_hash.length = 256 := by
    simp [parsedState, ho]
  have hrootlen_new : (parsedState new_payload).root_hash.length = 256 := by
    simp [parsedState, hn]
  have hmlen_old : (stateMerkleRoot sha256 old_payload).length = 256 := hsha _
  have hmlen_new : (stateMerkleRoot sha256 new_payload).length = 256 := hsha _
  refine ⟨_, hmaster, ?_, ?_, ?_, rfl, hmlen_old, hmlen_new⟩
  · exact enforce_equality_constraint_zero_iff _ _ (by rw [hrootlen_old, hmlen_old])
  · exact enforce_equality_constraint_zero_iff _ _ (by rw [hrootlen_new, hmlen_new])
  · show chunksOf 128 ((old_payload.drop 320).take 1024) = _
    rw [chunksOf128_1024 _ (by simp [ho])]

/-- Witness for C4 at the all-zero pair of 1440-bit payloads with a
concrete 256-bit hash stand-in. -/
theorem C4_merkle_root_constraints_witness :
    ∃ delta : List Int,
      ReachCircuit.synthesize constSha [] (List.replicate 1440 false) (List.replicate 1440 false)
        = (.ok (),
           ((([] ++ parseTrace (List.replicate 1440 false)
               ++ parseTrace (List.replicate 1440 false))
              ++ [((parsedState (List.replicate 1440 false)).height : Int)
                  - ((parsedState (List.replicate 1440 false)).height : Int) - 1])
             ++ [(enforce_equality_lcs (parsedState (List.replicate 1440 false)).root_hash
                    (stateMerkleRoot constSha (List.replicate 1440 false))).1
                 - (enforce_equality_lcs (parsedState (List.replicate 1440 false)).root_hash
                    (stateMerkleRoot constSha (List.replicate 1440 false))).2.1]
             ++ [(enforce_equality_lcs (parsedState (List.replicate 1440 false)).root_hash
                    (stateMerkleRoot constSha (List.replicate 1440 false))).1
                 - (enforce_equality_lcs (parsedState (List.replicate 1440 false)).root_hash
                    (stateMerkleRoot constSha (List.replicate 1440 false))).2.1])
           ++ delta)
      ∧ ((enforce_equality_lcs (parsedState (List.replicate 1440 false)).root_hash
            (stateMerkleRoot constSha (List.replicate 1440 false))).1
          - (enforce_equality_lcs (parsedState (List.replicate 1440 false)).root_hash
            (stateMerkleRoot constSha (List.replicate 1440 false))).2.1 = 0
        ↔ (parsedState (List.replicate 1440 false)).root_hash
            = stateMerkleRoot constSha (List.replicate 1440 false))
      ∧ ((enforce_equality_lcs (parsedState (List.replicate 1440 false)).root_hash
            (stateMerkleRoot constSha (List.replicate 1440 false))).1
          - (enforce_equality_lcs (parsedState (List.replicate 1440 false)).root_hash
            (stateMerkleRoot constSha (List.replicate 1440 false))).2.1 = 0
        ↔ (parsedState (List.replicate 1440 false)).root_hash
            = stateMerkleRoot constSha (List.replicate 1440 false))
      ∧ (parsedState (List.replicate 1440 false)).balances_bits
          = [(((List.replicate 1440 false).drop 320).take 1024).take 128,
             ((((List.replicate 1440 false).drop 320).take 1024).drop 128).take 128,
             ((((List.replicate 1440 false).drop 320).take 1024).drop 256).take 128,
             ((((List.replicate 1440 false).drop 320).take 1024).drop 384).take 128,
             ((((List.replicate 1440 false).drop 320).take 1024).drop 512).take 128,
             ((((List.replicate 1440 false).drop 320).take 1024).drop 640).take 128,
             ((((List.replicate 1440 false).drop 320).take 1024).drop 768).take 128,
             ((((List.replicate 1440 false).drop 320).take 1024).drop 896).take 128]
      ∧ stateMerkleRoot constSha (List.replicate 1440 false)
          = specMerkleRoot8 constSha
              ((((List.replicate 1440 false).drop 320).take 1024).take 128)
              (((((List.replicate 1440 false).drop 320).take 1024).drop 128).take 128)
              (((((List.replicate 1440 false).drop 320).take 1024).drop 256).take 128)
              (((((List.replicate 1440 false).drop 320).take 1024).drop 384).take 128)
              (((((List.replicate 1440 false).drop 320).take 1024).drop 512).take 128)
              (((((List.replicate 1440 false).drop 320).take 1024).drop 640).take 128)
              (((((List.replicate 1440 false).drop 320).take 1024).drop 768).take 128)
              (((((List.replicate 1440 false).drop 320).take 1024).drop 896).take 128)
      ∧ (stateMerkleRoot constSha (List.replicate 1440 false)).length = 256
      ∧ (stateMerkleRoot constSha (List.replicate 1440 false)).length = 256 :=
  C4_merkle_root_constraints constSha (fun x => by simp [constSha]) [] _ _
    (by simp) (by simp) (by decide) (by decide) (by decide) (by decide)
